import Mathlib

/-!
Verification development for the SimCLR-nashAE training script
(`train.py`).  The script's pure computational pieces — the `nt_xent`
contrastive loss, the `get_lr` cosine-annealing schedule, the
`AverageMeter` accumulator, the target-index construction, the
paired-sample dataset adapter and the order of effects in `train()` —
are embedded below, floats idealised as real (resp. rational) numbers.
Torch primitives are embedded by their documented semantics:
`F.normalize(x, dim=1)` divides each row by `max(‖row‖₂, 1e-12)`,
`clamp(min=c)` is a pointwise `max`, `F.cross_entropy` with mean
reduction is the mean over rows of `logsumexp(row) - row[target]`, and
`LambdaLR` multiplies the optimizer's base learning rate by the value
of the supplied lambda at the current step count.
-/

open BigOperators Finset

/-! ### AverageMeter (train.py lines 24-40); float values idealised as ℚ -/

structure AverageMeter where
  name : String
  val : ℚ
  avg : ℚ
  sum : ℚ
  count : ℕ

/-- `reset` (lines 30-34). -/
def AverageMeter.reset (m : AverageMeter) : AverageMeter :=
  { m with val := 0, avg := 0, sum := 0, count := 0 }

/-- `__init__` (lines 26-28): store the name, then reset. -/
def AverageMeter.init (name : String) : AverageMeter :=
  AverageMeter.reset { name := name, val := 0, avg := 0, sum := 0, count := 0 }

/-- `update(val, n)` (lines 36-40). -/
def AverageMeter.update (m : AverageMeter) (val : ℚ) (n : ℕ) : AverageMeter :=
  let sum := m.sum + val * n
  let count := m.count + n
  { m with val := val, sum := sum, count := count, avg := sum / count }

/-- A finite sequence of `update` calls, applied in order. -/
def AverageMeter.updates (m : AverageMeter) (us : List (ℚ × ℕ)) : AverageMeter :=
  us.foldl (fun a u => a.update u.1 u.2) m

/-! ### Target indices of nt_xent (train.py lines 72-75) -/

/-- `targets = torch.arange(x.size()[0])` (line 73). -/
def targetsInit (i : ℕ) : ℕ := i

/-- `targets[::2] += 1` (line 74): even positions gain 1. -/
def targetsStep1 (i : ℕ) : ℕ :=
  if i % 2 = 0 then targetsInit i + 1 else targetsInit i

/-- `targets[1::2] -= 1` (line 75): odd positions lose 1. -/
def targetsVal (i : ℕ) : ℕ :=
  if i % 2 = 1 then targetsStep1 i - 1 else targetsStep1 i

/-- The resulting target index as an index into the `2*N` rows. -/
def targetIdx (N : ℕ) (i : Fin (2 * N)) : Fin (2 * N) :=
  ⟨targetsVal i.val, by
    have hi := i.isLt
    unfold targetsVal targetsStep1 targetsInit
    rcases Nat.mod_two_eq_zero_or_one i.val with h | h <;> simp [h] <;> omega⟩

/-! ### Order of effects in `train()` (train.py lines 95-164) -/

inductive TrainEvent where
  | datasetDownloadLoad
  | dataLoaderInit
  | backboneAssertPass
  | backboneAssertFail
  | disentanglerPretrain
  | modelBuild
  | optimizerInit
  | schedulerInit
  | trainingLoop
deriving DecidableEq

/-- The backbones accepted by the assertion on line 119. -/
def validBackbones : List String := ["resnet18", "resnet34"]

/-- The effects of `train()` in source order: the CIFAR10Pair dataset is
constructed with `download=True` (line 105) and the loader built (line 110)
before the backbone assertion (line 119); on assertion failure execution
stops, otherwise the disentangler pretraining (line 121), model build,
optimizer and scheduler construction and the main loop follow. -/
def trainEvents (backbone : String) : List TrainEvent :=
  [TrainEvent.datasetDownloadLoad, TrainEvent.dataLoaderInit] ++
    (if backbone ∈ validBackbones then
      [TrainEvent.backboneAssertPass, TrainEvent.disentanglerPretrain,
       TrainEvent.modelBuild, TrainEvent.optimizerInit,
       TrainEvent.schedulerInit, TrainEvent.trainingLoop]
    else [TrainEvent.backboneAssertFail])

/-! ### CIFAR10Pair and the batch flattening (train.py lines 43-49, 147-149) -/

/-- `CIFAR10Pair.__getitem__(idx)` (lines 45-49): the image at `idx` is
augmented twice — two separate draws `r1`, `r2` of augmentation
randomness — and the two views are stacked as a 2-element ordered
sequence, returned with the label. -/
def pairGetitem {Img View Rand Label : Type} (data : ℕ → Img) (labels : ℕ → Label)
    (transform : Rand → Img → View) (r1 r2 : Rand) (idx : ℕ) :
    (Fin 2 → View) × Label :=
  (![transform r1 (data idx), transform r2 (data idx)], labels idx)

/-- A collated batch of `Nb` pairs: item `k` of the batch is
`CIFAR10Pair.__getitem__(indices k)` with randomness draws `(rands k).1`
and `(rands k).2`. -/
def pairBatch {Img View Rand Label : Type} (Nb : ℕ) (data : ℕ → Img) (labels : ℕ → Label)
    (transform : Rand → Img → View) (rands : Fin Nb → Rand × Rand)
    (indices : Fin Nb → ℕ) : Fin Nb → Fin 2 → View :=
  fun k => (pairGetitem data labels transform (rands k).1 (rands k).2 (indices k)).1

/-- `x.view(sizes[0] * 2, ...)` (line 149): row-major flattening of the
`(Nb, 2, ...)` batch into `2 * Nb` rows. -/
def flattenPairs {View : Type} (Nb : ℕ) (batch : Fin Nb → Fin 2 → View) :
    Fin (2 * Nb) → View :=
  fun i => batch ⟨i.val / 2, by have := i.isLt; omega⟩ ⟨i.val % 2, by omega⟩

/-! ### Real-valued definitions: learning-rate schedule and nt_xent -/

noncomputable section

/-- `get_lr` (train.py lines 79-81): cosine annealing schedule. -/
def get_lr (step total_steps lr_max lr_min : ℝ) : ℝ :=
  lr_min + (lr_max - lr_min) * 0.5 * (1 + Real.cos (step / total_steps * Real.pi))

/-- `torch.optim.lr_scheduler.LambdaLR`: the learning rate applied at
step count `s` is the optimizer's base learning rate times the value of
the supplied lambda at `s`. -/
def lambdaLRAppliedLR (base_lr : ℝ) (lr_lambda : ℕ → ℝ) (step : ℕ) : ℝ :=
  base_lr * lr_lambda step

/-- The `lr_lambda` passed to `LambdaLR` in `train()` (lines 134-140):
`get_lr(step, epochs * len(train_loader), learning_rate, 1e-3)`. -/
def trainLrLambda (learning_rate : ℝ) (epochs nbatches : ℕ) (step : ℕ) : ℝ :=
  get_lr (step : ℝ) ((epochs * nbatches : ℕ) : ℝ) learning_rate (1 / 10 ^ 3)

/-- The learning rate the optimizer actually applies at optimizer step
`step` during training (0-based, counted across epochs; `scheduler.step()`
runs once per batch, line 156). -/
def trainAppliedLR (learning_rate : ℝ) (epochs nbatches : ℕ) (step : ℕ) : ℝ :=
  lambdaLRAppliedLR learning_rate (trainLrLambda learning_rate epochs nbatches) step

/-- Global 0-based optimizer-step index of batch `b` in epoch `e`, both
0-based: the loop runs `nbatches` batches per epoch. -/
def globalStep (nbatches e b : ℕ) : ℕ := e * nbatches + b

/-- L2 norm of a row vector. -/
def l2norm {d : ℕ} (v : Fin d → ℝ) : ℝ := Real.sqrt (∑ j, v j ^ 2)

/-- `F.normalize(x, dim=1)` (line 63) with torch's default `eps = 1e-12`:
each row is divided by `max(‖row‖₂, 1e-12)`. -/
def Fnormalize {n d : ℕ} (x : Matrix (Fin n) (Fin d) ℝ) :
    Matrix (Fin n) (Fin d) ℝ :=
  fun i j => x i j / max (l2norm (x i)) (1 / 10 ^ 12)

/-- `x @ x.T` (line 65): all pairwise dot products of rows. -/
def gramMatrix {n d : ℕ} (x : Matrix (Fin n) (Fin d) ℝ) :
    Matrix (Fin n) (Fin n) ℝ :=
  fun i k => ∑ j, x i j * x k j

/-- `F.cross_entropy(input, target)` with default mean reduction: the mean
over rows of `logsumexp(row) - row[target]`. -/
def cross_entropy {n m : ℕ} (input : Matrix (Fin n) (Fin m) ℝ)
    (target : Fin n → Fin m) : ℝ :=
  (∑ i, (Real.log (∑ k, Real.exp (input i k)) - input i (target i))) / (n : ℝ)

/-- The tail of `nt_xent` after the pairwise scores are formed (lines
65-76): clamp to a minimum of `1e-7`, divide by the temperature, subtract
`1e5` on the diagonal (`- eye * 1e5`), then mean cross-entropy against the
target indices. -/
def lossFromScores {n : ℕ} (s : Matrix (Fin n) (Fin n) ℝ) (t : ℝ)
    (tgt : Fin n → Fin n) : ℝ :=
  cross_entropy (fun i k => max (s i k) (1 / 10 ^ 7) / t - (if i = k then 10 ^ 5 else 0)) tgt

/-- `nt_xent(x, t)` (train.py lines 62-76). -/
def nt_xent {N d : ℕ} (x : Matrix (Fin (2 * N)) (Fin d) ℝ) (t : ℝ) : ℝ :=
  lossFromScores (gramMatrix (Fnormalize x)) t (targetIdx N)

/-! ### Spec-side formulation for the refinement claim about nt_xent -/

/-- Softmax of a logit row. -/
def softmaxRow {m : ℕ} (l : Fin m → ℝ) (k : Fin m) : ℝ :=
  Real.exp (l k) / ∑ j, Real.exp (l j)

/-- Categorical cross-entropy of a logit row against a target class:
minus the log of the softmax probability of the target. -/
def catCrossEntropy {m : ℕ} (l : Fin m → ℝ) (tgt : Fin m) : ℝ :=
  - Real.log (softmaxRow l tgt)

/-- The logit matrix as the spec describes it: rows L2-normalized (the
row normalization the code performs), all pairwise dot products, entries
clamped to a minimum of `1e-7`, divided by the temperature, and `1e5`
subtracted from each diagonal entry. -/
def spec_logits {N d : ℕ} (x : Matrix (Fin (2 * N)) (Fin d) ℝ) (t : ℝ) :
    Matrix (Fin (2 * N)) (Fin (2 * N)) ℝ :=
  fun i k =>
    max (gramMatrix (Fnormalize x) i k) (1 / 10 ^ 7) / t - (if i = k then 10 ^ 5 else 0)

/-- The loss as the spec describes it: the mean over the `2*N` rows of the
categorical cross-entropy between row `i` of the logit matrix and row
`i`'s target index. -/
def spec_nt_xent {N d : ℕ} (x : Matrix (Fin (2 * N)) (Fin d) ℝ) (t : ℝ) : ℝ :=
  (∑ i, catCrossEntropy (fun k => spec_logits x t i k) (targetIdx N i)) / ((2 * N : ℕ) : ℝ)

/-- Concrete `2 × 1` embedding matrix probing the scale behaviour of
`nt_xent`: row 0 is `(1)` with norm 1, row 1 is `(5e-13)` with norm
5e-13, below the `eps = 1e-12` of `F.normalize`. -/
def x7 : Matrix (Fin (2 * 1)) (Fin 1) ℝ :=
  fun i _ => if (i : ℕ) = 0 then 1 else 5 / 10 ^ 13

end

/-! ### Theorems -/

/-- C2: for every embedding matrix of even row count `2*N` passed to
`nt_xent`, the target index assigned to row `i` is `i+1` when `i` is even
and `i-1` when `i` is odd: `target (2*k) = 2*k+1` and
`target (2*k+1) = 2*k` for all `k < N`. -/
theorem claim_C2 (N k : ℕ) (hk : k < N) (h1 : 2 * k < 2 * N)
    (h2 : 2 * k + 1 < 2 * N) :
    (targetIdx N ⟨2 * k, h1⟩).val = 2 * k + 1 ∧
    (targetIdx N ⟨2 * k + 1, h2⟩).val = 2 * k := by
  have e1 : (2 * k) % 2 = 0 := by omega
  have e2 : (2 * k + 1) % 2 = 1 := by omega
  constructor
  · simp [targetIdx, targetsVal, targetsStep1, targetsInit, e1]
  · simp [targetIdx, targetsVal, targetsStep1, targetsInit, e2]

/-- Witness for C2 at `N = 3`, `k = 1`. -/
theorem claim_C2_witness :
    1 < 3 ∧ (targetIdx 3 ⟨2 * 1, by omega⟩).val = 2 * 1 + 1 ∧
      (targetIdx 3 ⟨2 * 1 + 1, by omega⟩).val = 2 * 1 :=
  ⟨by omega, (claim_C2 3 1 (by omega) (by omega) (by omega)).1,
    (claim_C2 3 1 (by omega) (by omega) (by omega)).2⟩

/-- C5 counterexample: with the invalid backbone "resnet50" the run does
fail at the assertion, but the dataset download/load has already happened
before the assertion is reached, contradicting the claim that the failure
occurs before the dataset is downloaded or loaded. -/
theorem claim_C5_counterexample :
    "resnet50" ∉ validBackbones ∧
    TrainEvent.backboneAssertFail ∈ trainEvents "resnet50" ∧
    TrainEvent.datasetDownloadLoad ∈ trainEvents "resnet50" := by
  decide

/-- C5 (amended): if the configured backbone is not resnet18 or resnet34,
the run fails via the assertion before the disentangler pretraining, the
model build and the training loop — but after the dataset has been
downloaded/loaded and the data loader constructed. -/
theorem claim_C5 (b : String) (h : b ∉ validBackbones) :
    trainEvents b = [TrainEvent.datasetDownloadLoad, TrainEvent.dataLoaderInit,
      TrainEvent.backboneAssertFail] ∧
    TrainEvent.disentanglerPretrain ∉ trainEvents b ∧
    TrainEvent.trainingLoop ∉ trainEvents b := by
  refine ⟨?_, ?_, ?_⟩ <;> simp [trainEvents, h]

/-- Witness for C5 at the invalid backbone "resnet50". -/
theorem claim_C5_witness :
    "resnet50" ∉ validBackbones ∧
    (trainEvents "resnet50" = [TrainEvent.datasetDownloadLoad,
        TrainEvent.dataLoaderInit, TrainEvent.backboneAssertFail] ∧
      TrainEvent.disentanglerPretrain ∉ trainEvents "resnet50" ∧
      TrainEvent.trainingLoop ∉ trainEvents "resnet50") :=
  ⟨by decide, claim_C5 "resnet50" (by decide)⟩

/-- C8: the paired-sample adapter returns exactly two independently
augmented views (two separate randomness draws `r1`, `r2`) of the same
source image, stacked as a 2-element ordered sequence; and the training
loop's flattening of a batch of `Nb` such pairs yields a `2*Nb`-row
tensor in which rows `2*k` and `2*k+1` are the first and second view of
source image `k`. -/
theorem claim_C8 {Img View Rand Label : Type} (Nb : ℕ) (data : ℕ → Img)
    (labels : ℕ → Label) (transform : Rand → Img → View) (r1 r2 : Rand)
    (idx : ℕ) (rands : Fin Nb → Rand × Rand) (indices : Fin Nb → ℕ)
    (k : ℕ) (hk : k < Nb) (h1 : 2 * k < 2 * Nb) (h2 : 2 * k + 1 < 2 * Nb) :
    ((pairGetitem data labels transform r1 r2 idx).1 0 = transform r1 (data idx) ∧
      (pairGetitem data labels transform r1 r2 idx).1 1 = transform r2 (data idx)) ∧
    flattenPairs Nb (pairBatch Nb data labels transform rands indices) ⟨2 * k, h1⟩ =
      transform (rands ⟨k, hk⟩).1 (data (indices ⟨k, hk⟩)) ∧
    flattenPairs Nb (pairBatch Nb data labels transform rands indices) ⟨2 * k + 1, h2⟩ =
      transform (rands ⟨k, hk⟩).2 (data (indices ⟨k, hk⟩)) := by
  have ed1 : 2 * k / 2 = k := by omega
  have em1 : 2 * k % 2 = 0 := by omega
  have ed2 : (2 * k + 1) / 2 = k := by omega
  have em2 : (2 * k + 1) % 2 = 1 := by omega
  refine ⟨⟨rfl, rfl⟩, ?_, ?_⟩
  · simp [flattenPairs, pairBatch, pairGetitem, ed1, em1]
  · simp [flattenPairs, pairBatch, pairGetitem, ed2, em2]

/-- Witness for C8 at a concrete batch of one pair. -/
theorem claim_C8_witness :
    (0 : ℕ) < 1 ∧
    (((pairGetitem (fun n => n) (fun n => n) (fun r im => r + im) 100 200 5).1 0 =
          100 + 5 ∧
        (pairGetitem (fun n => n) (fun n => n) (fun r im => r + im) 100 200 5).1 1 =
          200 + 5) ∧
      flattenPairs 1 (pairBatch 1 (fun n => n) (fun n => n) (fun r im => r + im)
          (fun _ => (100, 200)) (fun _ => 5)) ⟨2 * 0, by omega⟩ =
        ((fun _ => ((100 : ℕ), (200 : ℕ))) (⟨0, by omega⟩ : Fin 1)).1 +
          (fun n => n) ((fun _ => (5 : ℕ)) (⟨0, by omega⟩ : Fin 1)) ∧
      flattenPairs 1 (pairBatch 1 (fun n => n) (fun n => n) (fun r im => r + im)
          (fun _ => (100, 200)) (fun _ => 5)) ⟨2 * 0 + 1, by omega⟩ =
        ((fun _ => ((100 : ℕ), (200 : ℕ))) (⟨0, by omega⟩ : Fin 1)).2 +
          (fun n => n) ((fun _ => (5 : ℕ)) (⟨0, by omega⟩ : Fin 1))) :=
  ⟨by omega,
    claim_C8 1 (fun n => n) (fun n => n) (fun r im => r + im) 100 200 5
      (fun _ => (100, 200)) (fun _ => 5) 0 (by omega) (by omega) (by omega)⟩

/-- Unfolding of a single update step of the meter. -/
theorem AverageMeter.updates_cons (m : AverageMeter) (u : ℚ × ℕ)
    (us : List (ℚ × ℕ)) :
    m.updates (u :: us) = (m.update u.1 u.2).updates us := rfl

/-- The count accumulated by a sequence of updates. -/
theorem AverageMeter.updates_count (us : List (ℚ × ℕ)) (m : AverageMeter) :
    (m.updates us).count = m.count + (us.map Prod.snd).sum := by
  induction us generalizing m with
  | nil => simp [AverageMeter.updates]
  | cons u us ih =>
    rw [AverageMeter.updates_cons, ih]
    simp [AverageMeter.update]
    omega

/-- The sum accumulated by a sequence of updates. -/
theorem AverageMeter.updates_sum (us : List (ℚ × ℕ)) (m : AverageMeter) :
    (m.updates us).sum = m.sum + (us.map (fun u => u.1 * (u.2 : ℚ))).sum := by
  induction us generalizing m with
  | nil => simp [AverageMeter.updates]
  | cons u us ih =>
    rw [AverageMeter.updates_cons, ih]
    simp [AverageMeter.update]
    ring

/-- The average always equals sum over count after any update sequence
that starts from a state satisfying the same relation. -/
theorem AverageMeter.updates_avg (us : List (ℚ × ℕ)) (m : AverageMeter)
    (h : m.avg = m.sum / (m.count : ℚ)) :
    (m.updates us).avg = (m.updates us).sum / ((m.updates us).count : ℚ) := by
  induction us generalizing m with
  | nil => exact h
  | cons u us ih =>
    rw [AverageMeter.updates_cons]
    exact ih _ rfl

/-- C10: after `reset()` followed by any finite sequence of
`update(val_i, n_i)` calls with every `n_i > 0`, the meter satisfies:
`count` is the sum of the `n_i`, `sum` is the sum of the `val_i * n_i`,
and `avg` equals `sum` divided by `count`. -/
theorem claim_C10 (m : AverageMeter) (us : List (ℚ × ℕ))
    (hpos : ∀ u ∈ us, 0 < u.2) :
    ((m.reset).updates us).count = (us.map Prod.snd).sum ∧
    ((m.reset).updates us).sum = (us.map (fun u => u.1 * (u.2 : ℚ))).sum ∧
    ((m.reset).updates us).avg =
      ((m.reset).updates us).sum / (((m.reset).updates us).count : ℚ) := by
  refine ⟨?_, ?_, ?_⟩
  · rw [AverageMeter.updates_count]; simp [AverageMeter.reset]
  · rw [AverageMeter.updates_sum]; simp [AverageMeter.reset]
  · exact AverageMeter.updates_avg us _ (by simp [AverageMeter.reset])

/-- Witness for C10: two updates `(3, 2)` and `(1, 1)` give count 3,
sum 7, average 7/3. -/
theorem claim_C10_witness :
    (∀ u ∈ [((3 : ℚ), 2), ((1 : ℚ), 1)], 0 < u.2) ∧
    (((AverageMeter.init "SimCLR_loss").reset.updates
        [((3 : ℚ), 2), ((1 : ℚ), 1)]).count =
      ([((3 : ℚ), 2), ((1 : ℚ), 1)].map Prod.snd).sum ∧
    ((AverageMeter.init "SimCLR_loss").reset.updates
        [((3 : ℚ), 2), ((1 : ℚ), 1)]).sum =
      ([((3 : ℚ), 2), ((1 : ℚ), 1)].map (fun u => u.1 * (u.2 : ℚ))).sum ∧
    ((AverageMeter.init "SimCLR_loss").reset.updates
        [((3 : ℚ), 2), ((1 : ℚ), 1)]).avg =
      ((AverageMeter.init "SimCLR_loss").reset.updates
        [((3 : ℚ), 2), ((1 : ℚ), 1)]).sum /
        ((((AverageMeter.init "SimCLR_loss").reset.updates
          [((3 : ℚ), 2), ((1 : ℚ), 1)]).count : ℕ) : ℚ)) :=
  ⟨by decide, claim_C10 (AverageMeter.init "SimCLR_loss")
    [((3 : ℚ), 2), ((1 : ℚ), 1)] (by decide)⟩

/-- C3 counterexample: with learning_rate 1/10, one epoch of 100 batches,
at optimizer step 0 the applied learning rate is
`learning_rate * get_lr 0 100 (1/10) (1/10^3) = 1/100`, not the
`get_lr 0 100 (1/10) (1/10^3) = 1/10` the claim states: `LambdaLR`
multiplies the base rate by the lambda value, and the lambda returns an
absolute rate rather than a factor. -/
theorem claim_C3_counterexample :
    trainAppliedLR (1 / 10) 1 100 0 ≠
      get_lr ((0 : ℕ) : ℝ) (((1 * 100 : ℕ)) : ℝ) (1 / 10) (1 / 10 ^ 3) := by
  unfold trainAppliedLR lambdaLRAppliedLR trainLrLambda get_lr
  norm_num [Real.cos_zero]

/-- C3 (amended): at every optimizer step — global step index
`e * nbatches + b` for batch `b` of epoch `e`, since `scheduler.step()`
runs once per batch — the applied learning rate is the base
`learning_rate` times `get_lr(step, epochs * nbatches, learning_rate,
1e-3)`; the `get_lr` value acts as a multiplicative factor on the base
rate, not as the rate itself. -/
theorem claim_C3 (learning_rate : ℝ) (epochs nbatches e b : ℕ)
    (he : e < epochs) (hb : b < nbatches) :
    trainAppliedLR learning_rate epochs nbatches (globalStep nbatches e b) =
      learning_rate * get_lr (((e * nbatches + b : ℕ)) : ℝ)
        (((epochs * nbatches : ℕ)) : ℝ) learning_rate (1 / 10 ^ 3) := rfl

/-- Witness for C3 at learning_rate 1/10, 1 epoch, 100 batches, step 0. -/
theorem claim_C3_witness :
    0 < 1 ∧ 0 < 100 ∧
    trainAppliedLR (1 / 10) 1 100 (globalStep 100 0 0) =
      (1 / 10) * get_lr (((0 * 100 + 0 : ℕ)) : ℝ) (((1 * 100 : ℕ)) : ℝ)
        (1 / 10) (1 / 10 ^ 3) :=
  ⟨by norm_num, by norm_num, claim_C3 (1 / 10) 1 100 0 0 (by norm_num) (by norm_num)⟩

/-- C4 counterexample: with `lr_max = 0 < 1 = lr_min` (allowed by the
claim, which quantifies over every `lr_max` and `lr_min`) the schedule is
strictly increasing on `[0, T]`, not non-increasing: at `T = 1`,
`get_lr 0 1 0 1 = 0 < 1 = get_lr 1 1 0 1`. -/
theorem claim_C4_counterexample :
    (0 : ℝ) < 1 ∧ (0 : ℝ) ≤ 0 ∧ (0 : ℝ) ≤ 1 ∧ (1 : ℝ) ≤ 1 ∧
    get_lr 0 1 0 1 < get_lr 1 1 0 1 := by
  refine ⟨by norm_num, by norm_num, by norm_num, by norm_num, ?_⟩
  unfold get_lr
  norm_num [Real.cos_zero, Real.cos_pi]

/-- C4 (amended): for every `T > 0`, `get_lr 0 T lr_max lr_min = lr_max`
and `get_lr T T lr_max lr_min = lr_min` exactly; provided
`lr_min ≤ lr_max`, `get_lr` is monotonically non-increasing in the step
over `[0, T]`; and the concrete examples
`get_lr 0 100 0.1 0.001 = 0.1` and `get_lr 100 100 0.1 0.001 = 0.001`
hold. -/
theorem claim_C4 (T mx mn : ℝ) (hT : 0 < T) :
    get_lr 0 T mx mn = mx ∧ get_lr T T mx mn = mn ∧
    (mn ≤ mx → ∀ a b : ℝ, 0 ≤ a → a ≤ b → b ≤ T →
      get_lr b T mx mn ≤ get_lr a T mx mn) ∧
    get_lr 0 100 (0.1 : ℝ) (0.001 : ℝ) = 0.1 ∧
    get_lr 100 100 (0.1 : ℝ) (0.001 : ℝ) = 0.001 := by
  refine ⟨?_, ?_, ?_, ?_, ?_⟩
  · unfold get_lr
    rw [zero_div, zero_mul, Real.cos_zero]
    ring
  · unfold get_lr
    rw [div_self hT.ne', one_mul, Real.cos_pi]
    ring
  · intro h a b ha hab hbT
    unfold get_lr
    have hπ := Real.pi_pos
    have h1 : a / T * Real.pi ≤ b / T * Real.pi := by gcongr
    have h0 : 0 ≤ a / T * Real.pi := by positivity
    have h2 : b / T * Real.pi ≤ Real.pi := by
      have hb1 : b / T ≤ 1 := (div_le_one hT).mpr hbT
      calc b / T * Real.pi ≤ 1 * Real.pi := by gcongr
        _ = Real.pi := one_mul Real.pi
    have hc := Real.cos_le_cos_of_nonneg_of_le_pi h0 h2 h1
    have hfac : 0 ≤ (mx - mn) * 0.5 := by
      have : (0 : ℝ) ≤ mx - mn := sub_nonneg.mpr h
      linarith
    have hm := mul_le_mul_of_nonneg_left (add_le_add_left hc 1) hfac
    linarith
  · unfold get_lr
    rw [zero_div, zero_mul, Real.cos_zero]
    norm_num
  · unfold get_lr
    norm_num [Real.cos_pi]

/-- Witness for C4 at `T = 2`, `lr_max = 1`, `lr_min = 0`, with the
monotonicity conjunct applied at `a = 1 ≤ b = 2`. -/
theorem claim_C4_witness :
    (0 : ℝ) < 2 ∧ (0 : ℝ) ≤ 1 ∧ (1 : ℝ) ≤ 2 ∧ (2 : ℝ) ≤ 2 ∧ (0 : ℝ) ≤ 1 ∧
    get_lr 0 2 1 0 = 1 ∧ get_lr 2 2 1 0 = 0 ∧
    get_lr 2 2 1 0 ≤ get_lr 1 2 1 0 :=
  ⟨by norm_num, by norm_num, by norm_num, by norm_num, by norm_num,
    (claim_C4 2 1 0 (by norm_num)).1,
    (claim_C4 2 1 0 (by norm_num)).2.1,
    (claim_C4 2 1 0 (by norm_num)).2.2.1 (by norm_num) 1 2 (by norm_num)
      (by norm_num) (by norm_num)⟩

/-- A sum of exponentials over a nonempty index type is positive. -/
theorem sum_exp_pos {m : ℕ} (i : Fin m) (l : Fin m → ℝ) :
    0 < ∑ k, Real.exp (l k) :=
  Finset.sum_pos (fun k _ => Real.exp_pos (l k)) ⟨i, Finset.mem_univ i⟩

/-- The categorical cross-entropy of a logit row equals the logsumexp of
the row minus the logit at the target. -/
theorem catCrossEntropy_eq {m : ℕ} (l : Fin m → ℝ) (tgt : Fin m) :
    catCrossEntropy l tgt = Real.log (∑ k, Real.exp (l k)) - l tgt := by
  unfold catCrossEntropy softmaxRow
  rw [Real.log_div (Real.exp_ne_zero _) (sum_exp_pos tgt l).ne', Real.log_exp]
  ring

/-- C1: `nt_xent x t` equals the mean over all `2*N` rows of the
categorical cross-entropy between row `i` of the logit matrix and row
`i`'s target index, where the logit matrix is built by L2-normalizing
the rows of `x`, taking all pairwise dot products, clamping at a minimum
of 1e-7, dividing by `t` and subtracting 1e5 from the diagonal. -/
theorem claim_C1 {N d : ℕ} (x : Matrix (Fin (2 * N)) (Fin d) ℝ) (t : ℝ)
    (ht : 0 < t) : nt_xent x t = spec_nt_xent x t := by
  unfold nt_xent lossFromScores cross_entropy spec_nt_xent
  congr 1
  apply Finset.sum_congr rfl
  intro i _
  rw [catCrossEntropy_eq]
  rfl

/-- Witness for C1 at the all-ones `2 × 1` embedding matrix and `t = 1`. -/
theorem claim_C1_witness :
    (0 : ℝ) < 1 ∧
    nt_xent (fun _ _ => (1 : ℝ) : Matrix (Fin (2 * 1)) (Fin 1) ℝ) 1 =
      spec_nt_xent (fun _ _ => (1 : ℝ) : Matrix (Fin (2 * 1)) (Fin 1) ℝ) 1 :=
  ⟨by norm_num, claim_C1 (fun _ _ => (1 : ℝ)) 1 (by norm_num)⟩

/-- Shifting the logits by the target logit inside a logsumexp. -/
theorem logsumexp_sub_eq {m : ℕ} (l : Fin m → ℝ) (tgt : Fin m) :
    Real.log (∑ k, Real.exp (l k)) - l tgt =
      Real.log (∑ k, Real.exp (l k - l tgt)) := by
  have hS : (∑ k, Real.exp (l k)) =
      Real.exp (l tgt) * ∑ k, Real.exp (l k - l tgt) := by
    rw [Finset.mul_sum]
    apply Finset.sum_congr rfl
    intro k _
    rw [← Real.exp_add]
    congr 1
    ring
  rw [hS, Real.log_mul (Real.exp_ne_zero _) (sum_exp_pos tgt _).ne', Real.log_exp]
  ring

/-- A per-row cross-entropy term is non-negative. -/
theorem rowCE_nonneg {m : ℕ} (l : Fin m → ℝ) (tgt : Fin m) :
    0 ≤ Real.log (∑ k, Real.exp (l k)) - l tgt := by
  have h : Real.exp (l tgt) ≤ ∑ k, Real.exp (l k) :=
    Finset.single_le_sum (fun k _ => (Real.exp_pos (l k)).le) (Finset.mem_univ tgt)
  have h2 := Real.log_le_log (Real.exp_pos (l tgt)) h
  rw [Real.log_exp] at h2
  linarith

/-- Raising the target logit and lowering every other logit can only
lower the per-row cross-entropy term. -/
theorem rowCE_mono {m : ℕ} (l l2 : Fin m → ℝ) (tgt : Fin m)
    (h1 : l tgt ≤ l2 tgt) (h2 : ∀ j, j ≠ tgt → l2 j ≤ l j) :
    Real.log (∑ k, Real.exp (l2 k)) - l2 tgt ≤
      Real.log (∑ k, Real.exp (l k)) - l tgt := by
  rw [logsumexp_sub_eq, logsumexp_sub_eq]
  apply Real.log_le_log (sum_exp_pos tgt _)
  apply Finset.sum_le_sum
  intro k _
  rcases eq_or_ne k tgt with rfl | hk
  · simp
  · exact Real.exp_le_exp.mpr (by linarith [h2 k hk])

/-- C6: `nt_xent` is non-negative; `nt_xent` factors through the matrix
of pairwise similarity scores; and, as a function of those scores, the
loss (weakly) decreases whenever each paired-row similarity increases
and every other similarity decreases — so it decreases toward its
minimum as paired similarities rise toward 1 and all others fall toward
-1. -/
theorem claim_C6 :
    (∀ (N d : ℕ) (x : Matrix (Fin (2 * N)) (Fin d) ℝ) (t : ℝ), 0 < t →
      0 ≤ nt_xent x t) ∧
    (∀ (N d : ℕ) (x : Matrix (Fin (2 * N)) (Fin d) ℝ) (t : ℝ),
      nt_xent x t = lossFromScores (gramMatrix (Fnormalize x)) t (targetIdx N)) ∧
    (∀ (N : ℕ) (s s2 : Matrix (Fin (2 * N)) (Fin (2 * N)) ℝ) (t : ℝ), 0 < t →
      (∀ i, s i (targetIdx N i) ≤ s2 i (targetIdx N i)) →
      (∀ i j, j ≠ targetIdx N i → s2 i j ≤ s i j) →
      lossFromScores s2 t (targetIdx N) ≤ lossFromScores s t (targetIdx N)) := by
  refine ⟨?_, ?_, ?_⟩
  · intro N d x t ht
    unfold nt_xent lossFromScores cross_entropy
    apply div_nonneg _ (Nat.cast_nonneg _)
    exact Finset.sum_nonneg fun i _ => rowCE_nonneg _ _
  · intro N d x t
    rfl
  · intro N s s2 t ht hpair hneg
    unfold lossFromScores cross_entropy
    rcases Nat.eq_zero_or_pos N with rfl | hN
    · simp
    · have hc : (0 : ℝ) < ((2 * N : ℕ) : ℝ) := by
        have : 0 < 2 * N := by omega
        exact_mod_cast this
      rw [div_le_div_iff_of_pos_right hc]
      apply Finset.sum_le_sum
      intro i _
      apply rowCE_mono
      · have := hpair i
        dsimp only
        gcongr
      · intro j hj
        have := hneg i j hj
        dsimp only
        gcongr

/-- Witness for C6: non-negativity at a concrete matrix, the score
factorisation, and the score-monotonicity applied to concrete score
matrices where the paired score rises from 0 to 1 and the others fall
from 0 to -1. -/
theorem claim_C6_witness :
    0 ≤ nt_xent (fun _ _ => (1 : ℝ) : Matrix (Fin (2 * 1)) (Fin 1) ℝ) 1 ∧
    nt_xent (fun _ _ => (1 : ℝ) : Matrix (Fin (2 * 1)) (Fin 1) ℝ) 1 =
      lossFromScores
        (gramMatrix (Fnormalize (fun _ _ => (1 : ℝ) : Matrix (Fin (2 * 1)) (Fin 1) ℝ)))
        1 (targetIdx 1) ∧
    lossFromScores
        (fun i j => if j = targetIdx 1 i then (1 : ℝ) else -1) 1 (targetIdx 1) ≤
      lossFromScores (fun _ _ => (0 : ℝ)) 1 (targetIdx 1) :=
  ⟨claim_C6.1 1 1 (fun _ _ => (1 : ℝ)) 1 (by norm_num),
   claim_C6.2.1 1 1 (fun _ _ => (1 : ℝ)) 1,
   claim_C6.2.2 1 (fun _ _ => (0 : ℝ))
     (fun i j => if j = targetIdx 1 i then (1 : ℝ) else -1) 1 (by norm_num)
     (fun i => by simp) (fun i j hj => by simp [hj])⟩

/-- The loss depends on the score matrix only through the clamped
scores. -/
theorem lossFromScores_congr {n : ℕ} (s s2 : Matrix (Fin n) (Fin n) ℝ)
    (t : ℝ) (tgt : Fin n → Fin n)
    (h : ∀ i k, max (s i k) (1 / 10 ^ 7) = max (s2 i k) (1 / 10 ^ 7)) :
    lossFromScores s t tgt = lossFromScores s2 t tgt := by
  unfold lossFromScores
  congr 1
  funext i k
  rw [h]

/-- Rows of unit L2 norm are unchanged by the normalization. -/
theorem Fnormalize_of_unit {n d : ℕ} (x : Matrix (Fin n) (Fin d) ℝ)
    (h : ∀ i, l2norm (x i) = 1) : Fnormalize x = x := by
  funext i j
  unfold Fnormalize
  rw [h i, max_eq_left (by norm_num), div_one]

/-- C9: for unit-row embedding matrices whose pairwise dot products agree
wherever either exceeds 1e-7 (and hence are both at most 1e-7 elsewhere),
`nt_xent` takes the same value: the clamp at 1e-7 makes all similarities
at or below 1e-7 indistinguishable to the loss. -/
theorem claim_C9 {N d : ℕ} (x x2 : Matrix (Fin (2 * N)) (Fin d) ℝ) (t : ℝ)
    (ht : 0 < t) (hx : ∀ i, l2norm (x i) = 1) (hx2 : ∀ i, l2norm (x2 i) = 1)
    (hagree : ∀ i k, (1 / 10 ^ 7 < gramMatrix x i k ∨
      1 / 10 ^ 7 < gramMatrix x2 i k) → gramMatrix x i k = gramMatrix x2 i k) :
    nt_xent x t = nt_xent x2 t := by
  unfold nt_xent
  rw [Fnormalize_of_unit x hx, Fnormalize_of_unit x2 hx2]
  apply lossFromScores_congr
  intro i k
  rcases le_or_lt (gramMatrix x i k) (1 / 10 ^ 7) with h1 | h1
  · rcases le_or_lt (gramMatrix x2 i k) (1 / 10 ^ 7) with h2 | h2
    · rw [max_eq_right h1, max_eq_right h2]
    · rw [hagree i k (Or.inr h2)]
  · rw [hagree i k (Or.inl h1)]

/-- Witness for C9: the rows `(1,0),(0,1)` versus the rows `(1,0),(-1,0)`
give pairwise dot products `0` versus `-1` off the diagonal — both at
most 1e-7 — and the loss agrees. -/
theorem claim_C9_witness :
    (0 : ℝ) < 1 ∧
    nt_xent (fun i j => if (i : ℕ) = (j : ℕ) then (1 : ℝ) else 0 :
        Matrix (Fin (2 * 1)) (Fin 2) ℝ) 1 =
      nt_xent (fun i j => if (j : ℕ) = 0 then (if (i : ℕ) = 0 then (1 : ℝ) else -1) else 0 :
        Matrix (Fin (2 * 1)) (Fin 2) ℝ) 1 := by
  refine ⟨by norm_num, ?_⟩
  apply claim_C9 _ _ 1 (by norm_num)
  · intro i
    unfold l2norm
    rcases i with ⟨iv, hiv⟩
    have hiv2 : iv = 0 ∨ iv = 1 := by omega
    rcases hiv2 with rfl | rfl <;> rw [Fin.sum_univ_two] <;> norm_num
  · intro i
    unfold l2norm
    rcases i with ⟨iv, hiv⟩
    have hiv2 : iv = 0 ∨ iv = 1 := by omega
    rcases hiv2 with rfl | rfl <;> rw [Fin.sum_univ_two] <;> norm_num
  · intro i k h
    rcases i with ⟨iv, hiv⟩
    rcases k with ⟨kv, hkv⟩
    have hiv2 : iv = 0 ∨ iv = 1 := by omega
    have hkv2 : kv = 0 ∨ kv = 1 := by omega
    unfold gramMatrix at h ⊢
    rcases hiv2 with rfl | rfl <;> rcases hkv2 with rfl | rfl <;>
      rw [Fin.sum_univ_two] at h ⊢ <;>
      rw [Fin.sum_univ_two] at h ⊢ <;>
      norm_num at h ⊢

/-- Positive scaling multiplies the row L2 norm. -/
theorem l2norm_smul {d : ℕ} (c : ℝ) (hc : 0 ≤ c) (v : Fin d → ℝ) :
    l2norm (fun j => c * v j) = c * l2norm v := by
  unfold l2norm
  have h : (∑ j, (c * v j) ^ 2) = c ^ 2 * ∑ j, v j ^ 2 := by
    rw [Finset.mul_sum]
    apply Finset.sum_congr rfl
    intro j _
    ring
  rw [h, Real.sqrt_mul (sq_nonneg c), Real.sqrt_sq hc]

/-- C7 (amended): `nt_xent (c • x) t = nt_xent x t` for every `c > 0`
and `t > 0`, provided every row of `x` and of `c • x` has L2 norm at
least 1e-12, so that the `eps` clamp inside `F.normalize` is inactive
for both matrices.  (Without that proviso the claim fails: rows with
norm below 1e-12 are divided by `eps` rather than their norm, and a
positive rescale can change the normalized row.) -/
theorem claim_C7 {N d : ℕ} (x : Matrix (Fin (2 * N)) (Fin d) ℝ) (c t : ℝ)
    (hc : 0 < c) (ht : 0 < t)
    (hx : ∀ i, 1 / 10 ^ 12 ≤ l2norm (x i))
    (hcx : ∀ i, 1 / 10 ^ 12 ≤ l2norm ((c • x) i)) :
    nt_xent (c • x) t = nt_xent x t := by
  have hnorm : Fnormalize (c • x) = Fnormalize x := by
    funext i j
    unfold Fnormalize
    have hn : l2norm ((c • x) i) = c * l2norm (x i) := l2norm_smul c hc.le (x i)
    have h2 : 1 / 10 ^ 12 ≤ c * l2norm (x i) := hn ▸ hcx i
    rw [hn, max_eq_left h2, max_eq_left (hx i)]
    show c * x i j / (c * l2norm (x i)) = x i j / l2norm (x i)
    rw [mul_div_mul_left _ _ hc.ne']
  unfold nt_xent
  rw [hnorm]

/-- Witness for C7 at the all-ones `2 × 1` matrix scaled by 2. -/
theorem claim_C7_witness :
    (0 : ℝ) < 2 ∧ (0 : ℝ) < 1 ∧
    nt_xent ((2 : ℝ) • (fun _ _ => (1 : ℝ) : Matrix (Fin (2 * 1)) (Fin 1) ℝ)) 1 =
      nt_xent (fun _ _ => (1 : ℝ) : Matrix (Fin (2 * 1)) (Fin 1) ℝ) 1 := by
  refine ⟨by norm_num, by norm_num, ?_⟩
  apply claim_C7 _ 2 1 (by norm_num) (by norm_num)
  · intro i
    unfold l2norm
    rw [Fin.sum_univ_one]
    rw [one_pow, Real.sqrt_one]
    norm_num
  · intro i
    unfold l2norm
    rw [Fin.sum_univ_one]
    show (1 : ℝ) / 10 ^ 12 ≤ Real.sqrt (((2 : ℝ) * 1) ^ 2)
    rw [show ((2 : ℝ) * 1) ^ 2 = 2 ^ 2 by norm_num, Real.sqrt_sq (by norm_num : (0 : ℝ) ≤ 2)]
    norm_num

/-- C7 counterexample: for the matrix x7 — row 0 equal to (1), row 1
equal to (5e-13), whose norm lies below the eps = 1e-12 of
F.normalize — scaling by c = 2 changes the loss at t = 1/2:
row 1 of x7 normalizes to (1/2) (division by eps), while row 1 of
2 • x7 normalizes to (1), so the two similarity matrices, hence the
losses, differ.  This refutes invariance of nt_xent under uniform
positive rescaling as stated for every matrix. -/
theorem claim_C7_counterexample :
    (0 : ℝ) < 2 ∧ (0 : ℝ) < 1 / 2 ∧
    nt_xent ((2 : ℝ) • x7) (1 / 2) ≠ nt_xent x7 (1 / 2) := by
  refine ⟨by norm_num, by norm_num, ?_⟩
  have hsum2 : ∀ f : Fin (2 * 1) → ℝ, (∑ i, f i) = f ⟨0, by omega⟩ + f ⟨1, by omega⟩ :=
    fun f => Fin.sum_univ_two f
  have hsum1 : ∀ f : Fin 1 → ℝ, (∑ i, f i) = f ⟨0, by omega⟩ :=
    fun f => Fin.sum_univ_one f
  have hx00 : x7 ⟨0, by omega⟩ ⟨0, by omega⟩ = 1 := rfl
  have hx10 : x7 ⟨1, by omega⟩ ⟨0, by omega⟩ = 5 / 10 ^ 13 := rfl
  have hn0 : l2norm (x7 ⟨0, by omega⟩) = 1 := by
    unfold l2norm
    simp only [hsum1]
    rw [hx00, one_pow, Real.sqrt_one]
  have hn1 : l2norm (x7 ⟨1, by omega⟩) = 5 / 10 ^ 13 := by
    unfold l2norm
    simp only [hsum1]
    rw [hx10, Real.sqrt_sq (by norm_num : (0 : ℝ) ≤ 5 / 10 ^ 13)]
  have hv0 : Fnormalize x7 ⟨0, by omega⟩ ⟨0, by omega⟩ = 1 := by
    unfold Fnormalize
    rw [hn0, hx00, max_eq_left (by norm_num : (1 : ℝ) / 10 ^ 12 ≤ 1), div_one]
  have hv1 : Fnormalize x7 ⟨1, by omega⟩ ⟨0, by omega⟩ = 1 / 2 := by
    unfold Fnormalize
    rw [hn1, hx10, max_eq_right (by norm_num : (5 : ℝ) / 10 ^ 13 ≤ 1 / 10 ^ 12)]
    norm_num
  have hg00 : gramMatrix (Fnormalize x7) ⟨0, by omega⟩ ⟨0, by omega⟩ = 1 := by
    unfold gramMatrix
    simp only [hsum1]
    rw [hv0]
    norm_num
  have hg01 : gramMatrix (Fnormalize x7) ⟨0, by omega⟩ ⟨1, by omega⟩ = 1 / 2 := by
    unfold gramMatrix
    simp only [hsum1]
    rw [hv0, hv1]
    norm_num
  have hg10 : gramMatrix (Fnormalize x7) ⟨1, by omega⟩ ⟨0, by omega⟩ = 1 / 2 := by
    unfold gramMatrix
    simp only [hsum1]
    rw [hv1, hv0]
    norm_num
  have hg11 : gramMatrix (Fnormalize x7) ⟨1, by omega⟩ ⟨1, by omega⟩ = 1 / 4 := by
    unfold gramMatrix
    simp only [hsum1]
    rw [hv1]
    norm_num
  have ht0 : targetIdx 1 ⟨0, by omega⟩ = ⟨1, by omega⟩ := rfl
  have ht1 : targetIdx 1 ⟨1, by omega⟩ = ⟨0, by omega⟩ := rfl
  have hmax1 : max (1 : ℝ) (1 / 10 ^ 7) = 1 := max_eq_left (by norm_num)
  have hmax2 : max (1 / 2 : ℝ) (1 / 10 ^ 7) = 1 / 2 := max_eq_left (by norm_num)
  have hmax4 : max (1 / 4 : ℝ) (1 / 10 ^ 7) = 1 / 4 := max_eq_left (by norm_num)
  have hL : nt_xent x7 (1 / 2) =
      (Real.log (Real.exp (2 - 10 ^ 5) + Real.exp 1) - 1 +
        (Real.log (Real.exp 1 + Real.exp (1 / 2 - 10 ^ 5)) - 1)) / 2 := by
    unfold nt_xent lossFromScores cross_entropy
    simp only [hsum2, ht0, ht1, hg00, hg01, hg10, hg11, hmax1, hmax2, hmax4]
    norm_num [Fin.mk.injEq]
  have hy00 : ((2 : ℝ) • x7) ⟨0, by omega⟩ ⟨0, by omega⟩ = 2 := by
    show (2 : ℝ) * x7 ⟨0, by omega⟩ ⟨0, by omega⟩ = 2
    rw [hx00]
    norm_num
  have hy10 : ((2 : ℝ) • x7) ⟨1, by omega⟩ ⟨0, by omega⟩ = 1 / 10 ^ 12 := by
    show (2 : ℝ) * x7 ⟨1, by omega⟩ ⟨0, by omega⟩ = 1 / 10 ^ 12
    rw [hx10]
    norm_num
  have hp0 : l2norm (((2 : ℝ) • x7) ⟨0, by omega⟩) = 2 := by
    unfold l2norm
    simp only [hsum1]
    rw [hy00, Real.sqrt_sq (by norm_num : (0 : ℝ) ≤ 2)]
  have hp1 : l2norm (((2 : ℝ) • x7) ⟨1, by omega⟩) = 1 / 10 ^ 12 := by
    unfold l2norm
    simp only [hsum1]
    rw [hy10, Real.sqrt_sq (by norm_num : (0 : ℝ) ≤ 1 / 10 ^ 12)]
  have hw0 : Fnormalize ((2 : ℝ) • x7) ⟨0, by omega⟩ ⟨0, by omega⟩ = 1 := by
    unfold Fnormalize
    rw [hp0, hy00, max_eq_left (by norm_num : (1 : ℝ) / 10 ^ 12 ≤ 2)]
    norm_num
  have hw1 : Fnormalize ((2 : ℝ) • x7) ⟨1, by omega⟩ ⟨0, by omega⟩ = 1 := by
    unfold Fnormalize
    rw [hp1, hy10, max_self]
    norm_num
  have hq00 : gramMatrix (Fnormalize ((2 : ℝ) • x7)) ⟨0, by omega⟩ ⟨0, by omega⟩ = 1 := by
    unfold gramMatrix
    simp only [hsum1]
    rw [hw0]
    norm_num
  have hq01 : gramMatrix (Fnormalize ((2 : ℝ) • x7)) ⟨0, by omega⟩ ⟨1, by omega⟩ = 1 := by
    unfold gramMatrix
    simp only [hsum1]
    rw [hw0, hw1]
    norm_num
  have hq10 : gramMatrix (Fnormalize ((2 : ℝ) • x7)) ⟨1, by omega⟩ ⟨0, by omega⟩ = 1 := by
    unfold gramMatrix
    simp only [hsum1]
    rw [hw1, hw0]
    norm_num
  have hq11 : gramMatrix (Fnormalize ((2 : ℝ) • x7)) ⟨1, by omega⟩ ⟨1, by omega⟩ = 1 := by
    unfold gramMatrix
    simp only [hsum1]
    rw [hw1]
    norm_num
  have hL2 : nt_xent ((2 : ℝ) • x7) (1 / 2) =
      (Real.log (Real.exp (2 - 10 ^ 5) + Real.exp 2) - 2 +
        (Real.log (Real.exp 2 + Real.exp (2 - 10 ^ 5)) - 2)) / 2 := by
    unfold nt_xent lossFromScores cross_entropy
    simp only [hsum2, ht0, ht1, hq00, hq01, hq10, hq11, hmax1]
    norm_num [Fin.mk.injEq]
  have hA : Real.log (Real.exp (2 - 10 ^ 5) + Real.exp 1) - 1 =
      Real.log (1 + Real.exp (1 - 10 ^ 5)) := by
    have he : Real.exp (2 - 10 ^ 5 : ℝ) = Real.exp 1 * Real.exp (1 - 10 ^ 5 : ℝ) := by
      rw [← Real.exp_add]
      congr 1
      ring
    rw [he, show Real.exp 1 * Real.exp (1 - 10 ^ 5 : ℝ) + Real.exp 1 =
      Real.exp 1 * (1 + Real.exp (1 - 10 ^ 5 : ℝ)) by ring]
    rw [Real.log_mul (Real.exp_ne_zero 1) (by positivity), Real.log_exp]
    ring
  have hD : Real.log (Real.exp (2 - 10 ^ 5) + Real.exp 2) - 2 =
      Real.log (1 + Real.exp (-(10 ^ 5 : ℝ))) := by
    have he : Real.exp (2 - 10 ^ 5 : ℝ) = Real.exp 2 * Real.exp (-(10 ^ 5 : ℝ)) := by
      rw [← Real.exp_add]
      congr 1
    rw [he, show Real.exp 2 * Real.exp (-(10 ^ 5 : ℝ)) + Real.exp 2 =
      Real.exp 2 * (1 + Real.exp (-(10 ^ 5 : ℝ))) by ring]
    rw [Real.log_mul (Real.exp_ne_zero 2) (by positivity), Real.log_exp]
    ring
  have hC : 0 ≤ Real.log (Real.exp 1 + Real.exp (1 / 2 - 10 ^ 5)) - 1 := by
    have h1 : Real.exp 1 ≤ Real.exp 1 + Real.exp (1 / 2 - 10 ^ 5 : ℝ) :=
      le_add_of_nonneg_right (Real.exp_pos _).le
    have h2 := Real.log_le_log (Real.exp_pos 1) h1
    rw [Real.log_exp] at h2
    linarith
  have h2e : (2 : ℝ) < Real.exp 1 := by
    have h := Real.add_one_lt_exp (by norm_num : (1 : ℝ) ≠ 0)
    linarith
  have hy : (0 : ℝ) < Real.exp (-(10 ^ 5 : ℝ)) := Real.exp_pos _
  have hylt : Real.exp (-(10 ^ 5 : ℝ)) < Real.exp 1 - 2 := by
    have h1 : Real.exp (-(10 ^ 5 : ℝ)) < Real.exp (-1 : ℝ) :=
      Real.exp_lt_exp.mpr (by norm_num)
    have h2 : Real.exp (-1 : ℝ) < 1 / 2 := by
      rw [Real.exp_neg, ← one_div, div_lt_iff₀ (Real.exp_pos 1)]
      linarith
    have h9 := Real.exp_one_gt_d9
    norm_num at h9
    linarith
  have hexp1y : Real.exp (1 - 10 ^ 5 : ℝ) = Real.exp 1 * Real.exp (-(10 ^ 5 : ℝ)) := by
    rw [← Real.exp_add]
    congr 1
  have hkey : 2 * Real.log (1 + Real.exp (-(10 ^ 5 : ℝ))) <
      Real.log (1 + Real.exp (1 - 10 ^ 5 : ℝ)) := by
    have hsq : Real.log ((1 + Real.exp (-(10 ^ 5 : ℝ))) ^ 2) =
        2 * Real.log (1 + Real.exp (-(10 ^ 5 : ℝ))) := by
      rw [Real.log_pow]
      norm_num
    rw [← hsq, hexp1y]
    apply Real.log_lt_log (by positivity)
    nlinarith [mul_pos hy (by linarith :
      (0 : ℝ) < Real.exp 1 - 2 - Real.exp (-(10 ^ 5 : ℝ)))]
  apply ne_of_lt
  rw [hL, hL2, hD, show Real.log (Real.exp 2 + Real.exp (2 - 10 ^ 5)) - 2 =
    Real.log (1 + Real.exp (-(10 ^ 5 : ℝ))) from by
      rw [add_comm (Real.exp 2) (Real.exp (2 - 10 ^ 5))]
      exact hD, hA]
  norm_num at hkey hC ⊢
  linarith
